import Mathlib

/-
Shallow embedding of the statistical test engine of the Honno/prng
repository (rngtest.stattests.runs, rngtest.stattests._template,
rngtest.randtests.fourier / coinflip._randtests.fourier), together with
theorems settling the frozen claims about it.

Python floats are modelled as rationals for the closed-form arithmetic of
the statistics and as real numbers for the special-function layer
(erfc, regularized upper incomplete gamma, confluent hypergeometric,
discrete Fourier transform).  Python exceptions are modelled by the
`PyErr` type and `Except`/`Option` results.
-/

set_option maxRecDepth 16000

namespace Prng

/-- Python exception kinds raised (or specified to be raised) by the code
under verification.  The named error classes of the spec
(InsufficientSequenceLength, DegenerateProportionError, ...) are included
so that statements about which error is raised can be expressed. -/
inductive PyErr where
  | valueError
  | notImplementedError
  | indexError
  | typeError
  | keyError
  | zeroDivisionError
  | insufficientSequenceLength
  | nonBinarySequenceError
  | nonBinaryTruncatedSequenceError
  | degenerateProportionError
  | templateNotInSequenceError
  deriving DecidableEq, Repr

variable {α : Type} [DecidableEq α]

/-- `Run` dataclass of `rngtest/stattests/runs.py`: a maximal stretch of
identical values, with its value and its length. -/
structure Run (α : Type) where
  value : α
  length : ℕ
  deriving DecidableEq, Repr

/-- Loop body of the `asruns` generator: `current_run` is `⟨v, len⟩`; each
further element either extends the current run or emits it and starts a
fresh run of length 1; the `for ... else` clause emits the final run. -/
def asrunsAux (v : α) (len : ℕ) : List α → List (Run α)
  | [] => [⟨v, len⟩]
  | x :: xs => if x = v then asrunsAux v (len + 1) xs else ⟨v, len⟩ :: asrunsAux x 1 xs

/-- `asruns(series)` of `rngtest/stattests/runs.py`: starts a run of the
first value with length 0, then scans the whole series (first element
included, which immediately bumps the length to 1).  The source raises on
an empty series (`series.iloc[0]`); every caller passes a non-empty one,
and the claims about `asruns` are restricted to non-empty input. -/
def asruns : List α → List (Run α)
  | [] => []
  | x :: xs => asrunsAux x 0 (x :: xs)

/-- Modelled from the spec: `blocks(sequence, blocksize)` of the shared
harness module (`rngtest.stattests.common` / `rngtest.stattests._common`,
absent from `src/`): the `n // blocksize` successive full blocks, the
trailing remainder discarded, for `blocksize > 0`. -/
def rawblocks (xs : List α) (blocksize : ℕ) : List (List α) :=
  (List.range (xs.length / blocksize)).map fun i => (xs.drop (i * blocksize)).take blocksize

/-- Modelled from the spec: `chunks` of `rngtest.stattests.common` (absent
from `src/`) partitions exactly like `rawblocks`. -/
def chunks (xs : List α) (blocksize : ℕ) : List (List α) :=
  rawblocks xs blocksize

-- ---------------------------------------------------------------------------
-- longest_runs (rngtest/stattests/runs.py)

/-- Regime constants selected by `longest_runs` from the length `n`. -/
structure LongestRunsRegime where
  blocksize : ℕ
  nblocks : ℕ
  freqbinranges : List ℕ
  deriving DecidableEq, Repr

/-- The `if n < 128 ... elif n < 6272 ... elif n < 750000 ... else` chain of
`longest_runs`; `n < 128` raises a bare `ValueError()`. -/
def longest_runs_regime (n : ℕ) : Except PyErr LongestRunsRegime :=
  if n < 128 then .error .valueError
  else if n < 6272 then .ok ⟨8, 16, [1, 2, 3, 4]⟩
  else if n < 750000 then .ok ⟨128, 49, [4, 5, 6, 7, 8, 9]⟩
  else .ok ⟨10 ^ 4, 75, [10, 11, 12, 13, 14, 15, 16]⟩

/-- The `probabilities` table of `longest_runs`, keyed by blocksize; a
missing key raises `NotImplementedError()`. -/
def maxlenProbabilities (blocksize : ℕ) : Except PyErr (List ℚ) :=
  if blocksize = 8 then .ok [0.2148, 0.3672, 0.2305, 0.1875]
  else if blocksize = 128 then .ok [0.1174, 0.2430, 0.2493, 0.1752, 0.1027, 0.1124]
  else if blocksize = 512 then .ok [0.1170, 0.2460, 0.2523, 0.1755, 0.1027, 0.1124]
  else if blocksize = 1000 then .ok [0.1307, 0.2437, 0.2452, 0.1714, 0.1002, 0.1088]
  else if blocksize = 10000 then
    .ok [0.0882, 0.2092, 0.2483, 0.1933, 0.1208, 0.0675, 0.0727]
  else .error .notImplementedError

/-- `freqbin(length)` of `longest_runs`: at or below the first boundary
gives bin 0; strictly between first and last boundary, the first matching
middle boundary gives its 1-based position (falling through to `None` when
nothing matches, which cannot happen for integer lengths over the
contiguous boundary lists); at or above the last boundary it returns
`len(freqbinranges)` (the Python code as written, with no subtraction). -/
def freqbin (freqbinranges : List ℕ) (length : ℕ) : Option ℕ :=
  let minrange := freqbinranges.headD 0
  let midranges := (freqbinranges.drop 1).dropLast
  let maxrange := freqbinranges.getLastD 0
  if length ≤ minrange then some 0
  else if minrange < length ∧ length < maxrange then
    match midranges.findIdx? fun b => b = length with
    | some i => some (i + 1)
    | none => none
  else if maxrange ≤ length then some freqbinranges.length
  else none

/-- The `freqbins[freqbin(length)] += 1` tally loop: indexing a list of
`bins.length` counters at an out-of-range position raises `IndexError`
(and indexing at `None` raises `TypeError`). -/
def tallyBins : List ℕ → List (Option ℕ) → Except PyErr (List ℕ)
  | bins, [] => .ok bins
  | _, none :: _ => .error .typeError
  | bins, some i :: rest =>
    if i < bins.length then tallyBins (bins.set i (bins.getD i 0 + 1)) rest
    else .error .indexError

/-- The per-chunk longest run of the candidate value: `maxlen` starts at 0
and is bumped by every longer candidate run. -/
def maxRunLength (chunk : List α) (candidate : α) : ℕ :=
  ((asruns chunk).filter fun r => r.value = candidate).foldl
    (fun maxlen r => if r.length > maxlen then r.length else maxlen) 0

/-- `statistic = sum((bincount - nblocks * prob) ** 2 / (nblocks * prob))`
over `zip(maxlenprobabilities, freqbins)`. -/
def chi2Statistic (probs : List ℚ) (freqbins : List ℕ) (nblocks : ℕ) : ℚ :=
  ((probs.zip freqbins).map fun pb =>
    ((pb.2 : ℚ) - nblocks * pb.1) ^ 2 / (nblocks * pb.1)).sum

/-- Outcome of the computable part of `longest_runs` (everything up to the
final `gammaincc` evaluation). -/
structure LongestRunsOut where
  regime : LongestRunsRegime
  freqbins : List ℕ
  statistic : ℚ
  deriving DecidableEq, Repr

/-- `longest_runs(series, candidate)` of `rngtest/stattests/runs.py`, up to
(and excluding) the `gammaincc` call: regime selection, probability-table
lookup, per-block longest candidate runs, frequency-bin tally and the
chi-square statistic. -/
def longest_runs_core (xs : List α) (candidate : α) : Except PyErr LongestRunsOut :=
  match longest_runs_regime xs.length with
  | .error e => .error e
  | .ok regime =>
    match maxlenProbabilities regime.blocksize with
    | .error e => .error e
    | .ok probs =>
      match tallyBins (List.replicate regime.freqbinranges.length 0)
          (((chunks xs regime.blocksize).map fun c => maxRunLength c candidate).map
            (freqbin regime.freqbinranges)) with
      | .error e => .error e
      | .ok freqbins => .ok ⟨regime, freqbins, chi2Statistic probs freqbins regime.nblocks⟩

-- ---------------------------------------------------------------------------
-- Template matching (rngtest/stattests/_template.py)

/-- The per-block scan loop of `non_overlapping_template_matching`:
`boundary = len(block_tup) - template_size`, and `while pointer < boundary`
the length-k window at the pointer is compared elementwise with the
template (`zip` truncates to the shorter list); a full match counts and
jumps the pointer by the template length, otherwise it advances by one.
The fuel argument only bounds the recursion; every terminating source
execution (template length at least 1) finishes within it. -/
def scan_matches (block tmpl : List α) (boundary : ℕ) : ℕ → ℕ → ℕ
  | 0, _ => 0
  | fuel + 1, pointer =>
    if pointer < boundary then
      let window := (block.drop pointer).take tmpl.length
      if (window.zip tmpl).all fun p => p.1 = p.2 then
        1 + scan_matches block tmpl boundary fuel (pointer + tmpl.length)
      else
        scan_matches block tmpl boundary fuel (pointer + 1)
    else 0

/-- The per-block match count of `non_overlapping_template_matching` as the
code computes it. -/
def nonoverlapping_matches (block tmpl : List α) : ℕ :=
  scan_matches block tmpl (block.length - tmpl.length) (block.length + 1) 0

/-- Definition following the words of claim C2: the greedy non-overlapping
scan over all start positions at which the template fits inside the block,
positions 0 through `blocksize - k` inclusive, requiring a full-window
match of the whole template. -/
def spec_scan (block tmpl : List α) : ℕ → ℕ → ℕ
  | 0, _ => 0
  | fuel + 1, pointer =>
    if pointer + tmpl.length ≤ block.length then
      if (block.drop pointer).take tmpl.length = tmpl then
        1 + spec_scan block tmpl fuel (pointer + tmpl.length)
      else
        spec_scan block tmpl fuel (pointer + 1)
    else 0

/-- Claim-side greedy non-overlapping count (start positions through
`blocksize - k` inclusive). -/
def spec_nonoverlapping_matches (block tmpl : List α) : ℕ :=
  spec_scan block tmpl (block.length + 1) 0

/-- The per-block scan loop of `overlapping_template_matching`: the pointer
runs over `range(blocksize)` unconditionally, and the window
`block[pointer : pointer + k]` is compared with the template through `zip`,
which truncates to the shorter operand, so a tail window shorter than the
template that matches a prefix of the template also counts. -/
def overlapping_matches (block tmpl : List α) (blocksize : ℕ) : ℕ :=
  ((List.range blocksize).filter fun pointer =>
    (((block.drop pointer).take tmpl.length).zip tmpl).all fun p => p.1 = p.2).length

/-- Definition following the words of claim C3: the number of start
positions `p` with `p + k ≤ blocksize` at which all `k` template elements
equal the corresponding block elements. -/
def spec_overlapping_matches (block tmpl : List α) : ℕ :=
  ((List.range (block.length + 1)).filter fun pointer =>
    decide (pointer + tmpl.length ≤ block.length ∧
      (block.drop pointer).take tmpl.length = tmpl)).length

-- ---------------------------------------------------------------------------
-- runs (rngtest/stattests/runs.py)

/-- The raising structure of the body of `runs(series, candidate)`:
`counts[candidate]` raises `KeyError` when the candidate does not occur
(pandas `value_counts` has no zero entries); no later statement of the
body raises — in particular there is no degenerate-proportion check, and
the division by `2 * sqrt(2 * n) * propcandidates * (1 - propcandidates)`
is performed unconditionally (on numpy floats it silently produces an
infinity when the proportion is 1). -/
def runs_err (xs : List α) (candidate : α) : Option PyErr :=
  if xs.count candidate = 0 then some .keyError else none

/-- `propcandidates = ncandidates / n` as an exact rational. -/
def runs_prop (xs : List α) (candidate : α) : ℚ :=
  (xs.count candidate : ℚ) / xs.length

/-- `nruns = sum(1 for _ in asruns(series))`. -/
def runs_nruns (xs : List α) : ℕ := (asruns xs).length

-- ---------------------------------------------------------------------------
-- non_overlapping_template_matching: recommendations and core

/-- The recommendations mapping of `non_overlapping_template_matching`
(condition name, condition value).  The third condition divides by
`blocksize`, which raises `ZeroDivisionError` in the source when
`blocksize = 0`; the embedding of the full function guards that case
separately, so this list is only consulted for `blocksize ≥ 1`. -/
def notm_recommendations (n nblocks blocksize : ℕ) : List (String × Bool) :=
  [("nblocks <= 100", decide (nblocks ≤ 100)),
    ("blocksize > 0.01 * n", decide ((0.01 : ℚ) * n < blocksize)),
    ("nblocks == n // blocksize", decide (nblocks = n / blocksize))]

/-- The `warn(f"Input parameters fail recommendation {rec}")` side effect,
modelled as the list of emitted warning messages. -/
def notm_warnings (n nblocks blocksize : ℕ) : List String :=
  (notm_recommendations n nblocks blocksize).filterMap fun r =>
    if r.2 = false then some ("Input parameters fail recommendation " ++ r.1) else none

/-- `matches_expect = (blocksize - template_size + 1) / 2 ** template_size`. -/
def notm_matches_expect (blocksize k : ℕ) : ℚ :=
  ((blocksize : ℚ) - k + 1) / 2 ^ k

/-- `variance = blocksize * (1 / 2 ** k - (2 * k - 1) / 2 ** (2 * k))`. -/
def notm_variance (blocksize k : ℕ) : ℚ :=
  (blocksize : ℚ) * (1 / 2 ^ k - (2 * (k : ℚ) - 1) / 2 ^ (2 * k))

/-- Everything `non_overlapping_template_matching` computes apart from the
recommendation warnings and the final `gammaincc` evaluation. -/
structure NotmCore where
  matchesExpect : ℚ
  variance : ℚ
  blockMatches : List ℕ
  statistic : ℚ
  deriving DecidableEq, Repr

/-- The recommendation-free computation of
`non_overlapping_template_matching`: blocksize, per-block greedy match
counts, expected matches, variance and the chi-square statistic.
`nblocks = 0` raises `ZeroDivisionError` at `blocksize = n // nblocks`. -/
def notm_core (xs tmpl : List α) (nblocks : ℕ) : Except PyErr NotmCore :=
  if nblocks = 0 then .error .zeroDivisionError
  else
    let n := xs.length
    let blocksize := n / nblocks
    let k := tmpl.length
    let matchesExpect := notm_matches_expect blocksize k
    let variance := notm_variance blocksize k
    let blockMatches := (rawblocks xs blocksize).map fun b => nonoverlapping_matches b tmpl
    let statistic := (blockMatches.map fun m => ((m : ℚ) - matchesExpect) ^ 2 / variance).sum
    .ok ⟨matchesExpect, variance, blockMatches, statistic⟩

/-- The body of `non_overlapping_template_matching(series, template,
nblocks)` in source order: `blocksize = n // nblocks` (ZeroDivisionError
for `nblocks = 0`), then the recommendations dict — whose third entry
evaluates `n // blocksize` and raises `ZeroDivisionError` when
`blocksize = 0` — then the warnings, the expected matches, the variance,
the per-block scan and the statistic. -/
def non_overlapping_template_matching (xs tmpl : List α) (nblocks : ℕ) :
    Except PyErr (NotmCore × List String) :=
  if nblocks = 0 then .error .zeroDivisionError
  else
    let n := xs.length
    let blocksize := n / nblocks
    if blocksize = 0 then .error .zeroDivisionError
    else
      let k := tmpl.length
      let warnings := notm_warnings n nblocks blocksize
      let matchesExpect := notm_matches_expect blocksize k
      let variance := notm_variance blocksize k
      let blockMatches := (rawblocks xs blocksize).map fun b => nonoverlapping_matches b tmpl
      let statistic := (blockMatches.map fun m => ((m : ℚ) - matchesExpect) ^ 2 / variance).sum
      .ok (⟨matchesExpect, variance, blockMatches, statistic⟩, warnings)

-- ---------------------------------------------------------------------------
-- overlapping_template_matching: computable core

/-- The `tallies[min(matches, 5)] += 1` bucket loop over the per-block
match counts (6 buckets, the last collecting every count of 5 or more). -/
def otm_tallies (blockMatches : List ℕ) : List ℕ :=
  blockMatches.foldl
    (fun tallies m => tallies.set (min m 5) (tallies.getD (min m 5) 0 + 1))
    (List.replicate 6 0)

/-- The computable part of `overlapping_template_matching(series, template,
nblocks)`: blocksize (`nblocks = 0` raises `ZeroDivisionError`), the
per-block overlapping match counts and their 6-bucket tally. -/
def otm_core (xs tmpl : List α) (nblocks : ℕ) : Except PyErr (ℕ × List ℕ) :=
  if nblocks = 0 then .error .zeroDivisionError
  else
    let blocksize := xs.length / nblocks
    let blockMatches := (rawblocks xs blocksize).map fun b =>
      overlapping_matches b tmpl blocksize
    .ok (blocksize, otm_tallies blockMatches)

-- ---------------------------------------------------------------------------
-- Special-function layer: erfc, regularized upper incomplete gamma,
-- confluent hypergeometric function (the functions the source takes from
-- math/scipy.special, modelled by their mathematical definitions)

/-- Complementary error function
`erfc x = (2 / sqrt pi) * integral of exp(-t^2) over (x, infinity)`. -/
noncomputable def erfc (x : ℝ) : ℝ :=
  2 / Real.sqrt Real.pi * ∫ t in Set.Ioi x, Real.exp (-t ^ 2)

/-- Regularized upper incomplete gamma function
`gammaincc a x = Gamma(a, x) / Gamma(a)` (the scipy convention used by the
source: first argument the shape, second the lower integration limit). -/
noncomputable def gammaincc (a x : ℝ) : ℝ :=
  (∫ t in Set.Ioi x, Real.exp (-t) * t ^ (a - 1)) / Real.Gamma a

/-- Ascending factorial `a (a+1) ... (a+j-1)` (Pochhammer symbol). -/
def asc (a : ℕ) : ℕ → ℕ
  | 0 => 1
  | j + 1 => asc a j * (a + j)

/-- Confluent hypergeometric function `M(a, b, z)` (Kummer, scipy
`hyp1f1`) for natural parameters, as its defining power series. -/
noncomputable def hyp1f1 (a b : ℕ) (z : ℝ) : ℝ :=
  tsum fun j : ℕ => (asc a j : ℝ) / (asc b j) * z ^ j / (Nat.factorial j)

-- ---------------------------------------------------------------------------
-- p-value layer of each test

/-- The `erfc` expression of `runs`: `p = erfc(|nruns - 2 n phat (1 - phat)
... | / (2 sqrt(2 n) phat (1 - phat)))` exactly as the source spells it
(numerator `2 * ncandidates * (1 - propcandidates)`). -/
noncomputable def runs_p (xs : List α) (candidate : α) : ℝ :=
  let n : ℝ := xs.length
  let ncandidates : ℝ := xs.count candidate
  let propcandidates := ncandidates / n
  erfc (|(runs_nruns xs : ℝ) - 2 * ncandidates * (1 - propcandidates)| /
    (2 * Real.sqrt (2 * n) * propcandidates * (1 - propcandidates)))

/-- `p = gammaincc(df / 2, statistic / 2)` of `longest_runs`, with
`df = len(freqbinranges) - 1`. -/
noncomputable def longest_runs_p (out : LongestRunsOut) : ℝ :=
  gammaincc (((out.regime.freqbinranges.length - 1 : ℕ) : ℝ) / 2)
    ((out.statistic : ℝ) / 2)

/-- `p = gammaincc(nblocks / 2, statistic / 2)` of
`non_overlapping_template_matching`. -/
noncomputable def notm_p (nblocks : ℕ) (statistic : ℚ) : ℝ :=
  gammaincc ((nblocks : ℝ) / 2) ((statistic : ℝ) / 2)

/-- The reference probabilities of `overlapping_template_matching`:
`lambda = (blocksize - k + 1) / 2 ** k`, `eta = lambda / 2`, and
`prob(x) = (eta exp(-2 eta) / 2 ** x) M(x + 1, 2, eta)` for x in 0..5. -/
noncomputable def otm_probabilities (blocksize k : ℕ) : List ℝ :=
  let lam : ℝ := ((blocksize : ℝ) - k + 1) / 2 ^ k
  let eta := lam / 2
  (List.range 6).map fun x =>
    eta * Real.exp (-2 * eta) / 2 ^ x * hyp1f1 (x + 1) 2 eta

/-- `statistic = sum((tally - nblocks prob)^2 / (nblocks prob))` over
`zip(tallies, probabilities)` of `overlapping_template_matching`. -/
noncomputable def otm_statistic (tallies : List ℕ) (nblocks blocksize k : ℕ) : ℝ :=
  ((tallies.zip (otm_probabilities blocksize k)).map fun tp =>
    ((tp.1 : ℝ) - nblocks * tp.2) ^ 2 / (nblocks * tp.2)).sum

/-- `p = gammaincc(df / 2, statistic / 2)` of
`overlapping_template_matching`, with `df = len(tallies) - 1`. -/
noncomputable def otm_p (tallies : List ℕ) (nblocks blocksize k : ℕ) : ℝ :=
  gammaincc (((tallies.length - 1 : ℕ) : ℝ) / 2)
    (otm_statistic tallies nblocks blocksize k / 2)

-- ---------------------------------------------------------------------------
-- Spectral test (rngtest/randtests/fourier.py, coinflip/_randtests/fourier.py)

/-- Modelled from the spec: `check_recommendations` of the harness core
module (absent from `src/`): every false entry is recorded as a failure,
nothing is raised. -/
def check_recommendations (recs : List (String × Bool)) : List String :=
  recs.filterMap fun r => if r.2 = false then some r.1 else none

/-- `oscillations = series.map({peak: 1, trough: -1})`. -/
def oscillations (xs : List α) (heads tails : α) : List ℤ :=
  xs.map fun v => if v = heads then 1 else if v = tails then -1 else 0

/-- Forward discrete Fourier transform (numpy/scipy `fft`) of an integer
signal: entry `j` is `sum_t signal[t] exp(-2 pi i j t / N)`. -/
noncomputable def dft (signal : List ℤ) (j : ℕ) : ℂ :=
  ∑ t ∈ Finset.range signal.length,
    ((signal.getD t 0 : ℤ) : ℂ) *
      Complex.exp (-(2 * Real.pi * Complex.I * j * t) / signal.length)

/-- `threshold = sqrt(log(1 / 0.05) * n)`. -/
noncomputable def spectral_threshold (n : ℕ) : ℝ :=
  Real.sqrt (Real.log (1 / 0.05) * n)

/-- `nbelow = sum(peaks < threshold)` over the first `half` spectrum
magnitudes. -/
noncomputable def spectral_nbelow (signal : List ℤ) (threshold : ℝ) (half : ℕ) : ℕ := by
  classical
  exact ((Finset.range half).filter fun j => Complex.abs (dft signal j) < threshold).card

/-- The quantities `spectral` computes after validation. -/
structure SpectralCore where
  threshold : ℝ
  nbelowExpect : ℝ
  signal : List ℤ
  halfCount : ℕ
  nbelow : ℕ
  statistic : ℝ
  p : ℝ

/-- The recommendation-free computation of the spectral test
(`discrete_fourier_transform` of rngtest / `spectral` of coinflip): `n` is
taken before truncation; an odd-length sequence is truncated by one and
must still hold 2 distinct values (`NonBinaryTruncatedSequenceError`);
threshold and expected count use the original `n`; the transform runs over
the truncated sequence and the first `n // 2` magnitudes are kept. -/
noncomputable def spectral_core (xs : List α) (heads tails : α) :
    Except PyErr SpectralCore :=
  let n := xs.length
  let series := if n % 2 ≠ 0 then xs.dropLast else xs
  if n % 2 ≠ 0 ∧ series.dedup.length ≠ 2 then .error .nonBinaryTruncatedSequenceError
  else
    let threshold := spectral_threshold n
    let nbelowExpect : ℝ := 0.95 * n / 2
    let osc := oscillations series heads tails
    let nbelow := spectral_nbelow osc threshold (n / 2)
    let diff : ℝ := nbelow - nbelowExpect
    let statistic := diff / Real.sqrt (n * 0.95 * 0.05 / 4)
    .ok ⟨threshold, nbelowExpect, osc, n / 2, nbelow, statistic,
      erfc (|statistic| / Real.sqrt 2)⟩

/-- `spectral(series, heads, tails, ctx)` of coinflip in source order:
recommendation failures are collected first (`n ≥ 1000`), then the
truncation check, then the statistic; the failures are attached to the
returned result. -/
noncomputable def spectral (xs : List α) (heads tails : α) :
    Except PyErr (SpectralCore × List String) :=
  let n := xs.length
  let failures := check_recommendations [("n ≥ 1000", decide (1000 ≤ n))]
  let series := if n % 2 ≠ 0 then xs.dropLast else xs
  if n % 2 ≠ 0 ∧ series.dedup.length ≠ 2 then .error .nonBinaryTruncatedSequenceError
  else
    let threshold := spectral_threshold n
    let nbelowExpect : ℝ := 0.95 * n / 2
    let osc := oscillations series heads tails
    let nbelow := spectral_nbelow osc threshold (n / 2)
    let diff : ℝ := nbelow - nbelowExpect
    let statistic := diff / Real.sqrt (n * 0.95 * 0.05 / 4)
    .ok (⟨threshold, nbelowExpect, osc, n / 2, nbelow, statistic,
      erfc (|statistic| / Real.sqrt 2)⟩, failures)

-- ---------------------------------------------------------------------------
-- Concrete evaluation points used by the witnesses

/-- 128-element alternating sequence (64 copies of `[0, 1]`). -/
def w8input : List ℤ := (List.replicate 64 ([0, 1] : List ℤ)).flatten

/-- The concrete `longest_runs` outcome on `w8input` with candidate 1. -/
def w8out : LongestRunsOut :=
  (longest_runs_core w8input 1).toOption.getD ⟨⟨0, 0, []⟩, [], 0⟩

/-- The concrete outcome of `non_overlapping_template_matching` on
`[0, 1, 0, 1]` with template `[1]` and 2 blocks. -/
def wNotmOut : NotmCore × List String :=
  (non_overlapping_template_matching ([0, 1, 0, 1] : List ℤ) [1] 2).toOption.getD
    (⟨0, 0, [], 0⟩, [])

/-- The concrete outcome of the `otm_core` computation on an alternating
8-element sequence with template `[0, 1]` and 2 blocks. -/
def wOtm : ℕ × List ℕ :=
  (otm_core ([0, 1, 0, 1, 0, 1, 0, 1] : List ℤ) [0, 1] 2).toOption.getD (0, [])

/-- The concrete outcome of `spectral` on `[0, 1]`. -/
noncomputable def wSpec : SpectralCore × List String :=
  (spectral ([0, 1] : List ℤ) 0 1).toOption.getD (⟨0, 0, [], 0, 0, 0, 0⟩, [])

/-- The concrete outcome of `spectral_core` on the odd-length `[0, 1, 0]`. -/
noncomputable def wSpecOdd : SpectralCore :=
  (spectral_core ([0, 1, 0] : List ℤ) 0 1).toOption.getD ⟨0, 0, [], 0, 0, 0, 0⟩

-- ---------------------------------------------------------------------------
-- The scipy domain of gammaincc

/-- Modelled from the scipy documentation: `scipy.special.gammaincc(a, x)`
is defined for positive `a` and nonnegative `x` and returns NaN outside
that domain; `none` models the NaN float. -/
noncomputable def scipy_gammaincc (a x : ℝ) : Option ℝ :=
  if 0 < a ∧ 0 ≤ x then some (gammaincc a x) else none

/-- The p value of `overlapping_template_matching` as the floats compute
it: `gammaincc(df / 2, statistic / 2)` through scipy, which yields NaN
(`none`) when the statistic is negative. -/
noncomputable def otm_p_scipy (tallies : List ℕ) (nblocks blocksize k : ℕ) : Option ℝ :=
  scipy_gammaincc (((tallies.length - 1 : ℕ) : ℝ) / 2)
    (otm_statistic tallies nblocks blocksize k / 2)

-- ---------------------------------------------------------------------------
-- THEOREMS (all definitions are above this line)

-- ---------------------------------------------------------------------------
-- Lemmas about asruns

theorem asrunsAux_sum (v : α) (len : ℕ) (xs : List α) :
    ((asrunsAux v len xs).map Run.length).sum = len + xs.length := by
  induction xs generalizing v len with
  | nil => simp [asrunsAux]
  | cons x xs ih =>
    by_cases h : x = v
    · simp only [asrunsAux, if_pos h, ih]
      simp; omega
    · simp only [asrunsAux, if_neg h, List.map_cons, List.sum_cons, ih]
      simp; omega

theorem asrunsAux_length_pos (v : α) (len : ℕ) (hlen : 1 ≤ len) (xs : List α) :
    ∀ r ∈ asrunsAux v len xs, 1 ≤ r.length := by
  induction xs generalizing v len with
  | nil =>
    intro r hr
    simp only [asrunsAux, List.mem_singleton] at hr
    subst hr; exact hlen
  | cons x xs ih =>
    intro r hr
    by_cases h : x = v
    · rw [asrunsAux, if_pos h] at hr
      exact ih v (len + 1) (by omega) r hr
    · rw [asrunsAux, if_neg h] at hr
      rcases List.mem_cons.1 hr with h1 | h1
      · subst h1; exact hlen
      · exact ih x 1 le_rfl r h1

theorem asrunsAux_head (v : α) (len : ℕ) (xs : List α) :
    ∃ m, (asrunsAux v len xs).head? = some ⟨v, m⟩ := by
  induction xs generalizing v len with
  | nil => exact ⟨len, rfl⟩
  | cons x xs ih =>
    by_cases h : x = v
    · rw [asrunsAux, if_pos h]; exact ih v (len + 1)
    · rw [asrunsAux, if_neg h]; exact ⟨len, rfl⟩

theorem asrunsAux_chain (v : α) (len : ℕ) (xs : List α) :
    List.Chain' (fun a b : Run α => a.value ≠ b.value) (asrunsAux v len xs) := by
  induction xs generalizing v len with
  | nil => simp [asrunsAux]
  | cons x xs ih =>
    by_cases h : x = v
    · rw [asrunsAux, if_pos h]; exact ih v (len + 1)
    · rw [asrunsAux, if_neg h]
      refine List.chain'_cons'.2 ⟨?_, ih x 1⟩
      intro b hb
      obtain ⟨m, hm⟩ := asrunsAux_head x 1 xs
      rw [hm] at hb
      cases hb
      exact fun hvx => h hvx.symm

theorem asrunsAux_replicate (v : α) (len n : ℕ) :
    asrunsAux v len (List.replicate n v) = [⟨v, len + n⟩] := by
  induction n generalizing len with
  | zero => simp [asrunsAux]
  | succ n ih =>
    rw [List.replicate_succ, asrunsAux, if_pos rfl, ih]
    simp; omega

theorem asruns_replicate (x : α) (n : ℕ) (hn : 1 ≤ n) :
    asruns (List.replicate n x) = [⟨x, n⟩] := by
  obtain ⟨m, rfl⟩ : ∃ m, n = m + 1 := ⟨n - 1, by omega⟩
  rw [List.replicate_succ, asruns, asrunsAux, if_pos rfl, asrunsAux_replicate]
  have h1 : 0 + 1 + m = m + 1 := by omega
  rw [h1]

-- ---------------------------------------------------------------------------
-- Claim theorems on runs decomposition and longest_runs

/-- Claim C9: on every non-empty sequence, `asruns` yields runs of length
at least 1, with distinct adjacent values, whose lengths sum to the total
length; a length-1 sequence yields a single run of length 1 and a uniform
sequence a single run spanning the whole sequence. -/
theorem claim_C9_asruns_decomposition (xs : List α) (hne : xs ≠ []) :
    ((asruns xs).map Run.length).sum = xs.length ∧
    (∀ r ∈ asruns xs, 1 ≤ r.length) ∧
    List.Chain' (fun a b : Run α => a.value ≠ b.value) (asruns xs) ∧
    (∀ x, xs = [x] → asruns xs = [⟨x, 1⟩]) ∧
    (∀ x n, 1 ≤ n → xs = List.replicate n x → asruns xs = [⟨x, n⟩]) := by
  cases xs with
  | nil => exact absurd rfl hne
  | cons x t =>
    have hunfold : asruns (x :: t) = asrunsAux x 1 t := by
      rw [asruns, asrunsAux, if_pos rfl]
    refine ⟨?_, ?_, ?_, ?_, ?_⟩
    · rw [hunfold, asrunsAux_sum]
      simp only [List.length_cons]
      omega
    · rw [hunfold]; exact asrunsAux_length_pos x 1 le_rfl t
    · rw [hunfold]; exact asrunsAux_chain x 1 t
    · intro y hy
      obtain ⟨rfl, rfl⟩ : x = y ∧ t = [] := by
        injection hy with h1 h2; exact ⟨h1, h2⟩
      rw [asruns, asrunsAux, if_pos rfl, asrunsAux]
    · intro y n hn hrep
      rw [hrep, asruns_replicate y n hn]

/-- Witness for C9 at a concrete input. -/
theorem claim_C9_witness :
    ([0, 0, 1] : List ℤ) ≠ [] ∧
      (((asruns ([0, 0, 1] : List ℤ)).map Run.length).sum = 3 ∧
        ∀ r ∈ asruns ([0, 0, 1] : List ℤ), 1 ≤ r.length) :=
  ⟨by decide,
    ⟨(claim_C9_asruns_decomposition ([0, 0, 1] : List ℤ) (by decide)).1,
      (claim_C9_asruns_decomposition ([0, 0, 1] : List ℤ) (by decide)).2.1⟩⟩

/-- Claim C1 (refuted): bucketing a longest-run length at or above the
highest boundary yields `freqbin = len(freqbinranges)`, one past the last
valid index, so the `freqbins[freqbin(length)] += 1` tally raises
`IndexError`; on 128 ones with candidate 1 the whole test aborts. -/
theorem claim_C1_freqbin_out_of_range :
    freqbin [1, 2, 3, 4] 8 = some 4 ∧
      tallyBins (List.replicate 4 0) [freqbin [1, 2, 3, 4] 8] = .error .indexError ∧
      longest_runs_core (List.replicate 128 (1 : ℤ)) 1 = .error .indexError :=
  ⟨rfl, rfl, rfl⟩

/-- Claim C5: regime selection of `longest_runs` for `n ≥ 128`: blocksize 8
with 16 blocks and 4 bins below 6272, blocksize 128 with 49 blocks and 6
bins below 750000, blocksize 10000 with 75 blocks and 7 bins above. -/
theorem claim_C5_regime_selection (n : ℕ) (h : 128 ≤ n) :
    (n < 6272 → longest_runs_regime n = .ok ⟨8, 16, [1, 2, 3, 4]⟩) ∧
    (6272 ≤ n → n < 750000 → longest_runs_regime n = .ok ⟨128, 49, [4, 5, 6, 7, 8, 9]⟩) ∧
    (750000 ≤ n → longest_runs_regime n = .ok ⟨10 ^ 4, 75, [10, 11, 12, 13, 14, 15, 16]⟩) := by
  refine ⟨fun h1 => ?_, fun h1 h2 => ?_, fun h1 => ?_⟩ <;>
    · rw [longest_runs_regime]
      split_ifs <;> first | rfl | omega

/-- Witness for C5 at the boundary lengths 6271, 6272, 749999 and 750000. -/
theorem claim_C5_witness :
    longest_runs_regime 6271 = .ok ⟨8, 16, [1, 2, 3, 4]⟩ ∧
    longest_runs_regime 6272 = .ok ⟨128, 49, [4, 5, 6, 7, 8, 9]⟩ ∧
    longest_runs_regime 749999 = .ok ⟨128, 49, [4, 5, 6, 7, 8, 9]⟩ ∧
    longest_runs_regime 750000 = .ok ⟨10 ^ 4, 75, [10, 11, 12, 13, 14, 15, 16]⟩ :=
  ⟨(claim_C5_regime_selection 6271 (by norm_num)).1 (by norm_num),
    (claim_C5_regime_selection 6272 (by norm_num)).2.1 (by norm_num) (by norm_num),
    (claim_C5_regime_selection 749999 (by norm_num)).2.1 (by norm_num) (by norm_num),
    (claim_C5_regime_selection 750000 (by norm_num)).2.2 (by norm_num)⟩

/-- Claim C6 (counterexample): on a sequence of length 127 the code fails
with a bare `ValueError()`, not with the typed `InsufficientSequenceLength`
error named by the claim. -/
theorem claim_C6_counterexample :
    longest_runs_core (List.replicate 127 (0 : ℤ)) 0 = .error .valueError ∧
      longest_runs_core (List.replicate 127 (0 : ℤ)) 0 ≠
        .error .insufficientSequenceLength := by
  refine ⟨rfl, fun hcontra => ?_⟩
  have : PyErr.valueError = PyErr.insufficientSequenceLength := by
    have h2 : (Except.error PyErr.valueError : Except PyErr LongestRunsOut) =
        .error .insufficientSequenceLength := by
      rw [← hcontra]; rfl
    exact Except.error.inj h2
  simp at this

/-- Claim C6 (amended): for every sequence of length below 128 the code
fails before computing any statistic, with a bare `ValueError`. -/
theorem claim_C6_amended (xs : List α) (c : α) (h : xs.length < 128) :
    longest_runs_core xs c = .error .valueError := by
  rw [longest_runs_core, longest_runs_regime, if_pos h]

/-- Witness for C6 at length 127. -/
theorem claim_C6_witness :
    (List.replicate 127 (0 : ℤ)).length < 128 ∧
      longest_runs_core (List.replicate 127 (0 : ℤ)) 0 = .error .valueError :=
  ⟨by decide, claim_C6_amended (List.replicate 127 (0 : ℤ)) 0 (by decide)⟩


/-- Claim C2 (refuted): the code stops one start position short.  In the
block of 35 zeros followed by a one, with template `[1]` (blocksize 36,
k = 1), the only occurrence ends exactly at the final element, at start
position 35 = blocksize - k; the code scans `pointer < 35` and counts 0,
while the greedy scan of the claim counts 1. -/
theorem claim_C2_scan_boundary :
    nonoverlapping_matches (List.replicate 35 (0 : ℤ) ++ [1]) [1] = 0 ∧
      spec_nonoverlapping_matches (List.replicate 35 (0 : ℤ) ++ [1]) [1] = 1 :=
  ⟨rfl, rfl⟩

/-- Claim C3 (refuted): `zip` truncation counts short tail windows.  In the
block `[0, 1]` with template `[1, 1]` (blocksize 2, k = 2) there is no full
match, but at start position 1 the length-1 tail window `[1]` matches the
template prefix after `zip` truncation, so the code counts 1. -/
theorem claim_C3_tail_window :
    overlapping_matches ([0, 1] : List ℤ) [1, 1] 2 = 1 ∧
      spec_overlapping_matches ([0, 1] : List ℤ) [1, 1] = 0 :=
  ⟨rfl, rfl⟩

-- ---------------------------------------------------------------------------
-- Bounds on the special functions and statistics

theorem erfc_nonneg (x : ℝ) : 0 ≤ erfc x := by
  unfold erfc
  refine mul_nonneg (by positivity) ?_
  exact MeasureTheory.setIntegral_nonneg measurableSet_Ioi fun t _ => Real.exp_nonneg _

theorem integrableOn_exp_neg_sq (x : ℝ) :
    MeasureTheory.IntegrableOn (fun t : ℝ => Real.exp (-t ^ 2)) (Set.Ioi x) := by
  have h := (integrable_exp_neg_mul_sq (by norm_num : (0 : ℝ) < 1)).integrableOn
    (s := Set.Ioi x)
  simpa using h

theorem erfc_le_one {x : ℝ} (hx : 0 ≤ x) : erfc x ≤ 1 := by
  unfold erfc
  have hs : (0 : ℝ) < Real.sqrt Real.pi := Real.sqrt_pos.2 Real.pi_pos
  have hint : ∫ t in Set.Ioi x, Real.exp (-t ^ 2) ≤ ∫ t in Set.Ioi (0 : ℝ), Real.exp (-t ^ 2) := by
    refine MeasureTheory.setIntegral_mono_set (integrableOn_exp_neg_sq 0) ?_ ?_
    · exact Filter.Eventually.of_forall fun t => Real.exp_nonneg _
    · exact HasSubset.Subset.eventuallyLE (Set.Ioi_subset_Ioi hx)
  have hval : ∫ t in Set.Ioi (0 : ℝ), Real.exp (-t ^ 2) = Real.sqrt Real.pi / 2 := by
    have h := integral_gaussian_Ioi 1
    simpa using h
  calc 2 / Real.sqrt Real.pi * ∫ t in Set.Ioi x, Real.exp (-t ^ 2)
      ≤ 2 / Real.sqrt Real.pi * (Real.sqrt Real.pi / 2) :=
        mul_le_mul_of_nonneg_left (hint.trans_eq hval) (by positivity)
    _ = 1 := by field_simp

theorem gammaincc_nonneg {a : ℝ} (ha : 0 < a) {x : ℝ} (hx : 0 ≤ x) :
    0 ≤ gammaincc a x := by
  unfold gammaincc
  refine div_nonneg (MeasureTheory.setIntegral_nonneg measurableSet_Ioi fun t ht => ?_)
    (Real.Gamma_pos_of_pos ha).le
  exact mul_nonneg (Real.exp_nonneg _)
    (Real.rpow_nonneg (le_trans hx (le_of_lt (Set.mem_Ioi.1 ht))) _)

theorem gammaincc_le_one {a : ℝ} (ha : 0 < a) {x : ℝ} (hx : 0 ≤ x) :
    gammaincc a x ≤ 1 := by
  unfold gammaincc
  rw [div_le_one (Real.Gamma_pos_of_pos ha)]
  have h0 : ∫ t in Set.Ioi (0 : ℝ), Real.exp (-t) * t ^ (a - 1) = Real.Gamma a :=
    (Real.Gamma_eq_integral ha).symm
  rw [← h0]
  refine MeasureTheory.setIntegral_mono_set (Real.GammaIntegral_convergent ha) ?_ ?_
  · exact (MeasureTheory.ae_restrict_iff' measurableSet_Ioi).2
      (Filter.Eventually.of_forall fun t ht =>
        mul_nonneg (Real.exp_nonneg _) (Real.rpow_nonneg (le_of_lt ht) _))
  · exact HasSubset.Subset.eventuallyLE (Set.Ioi_subset_Ioi hx)


theorem asc_pos {a : ℕ} (ha : 1 ≤ a) (j : ℕ) : 0 < asc a j := by
  induction j with
  | zero => exact Nat.one_pos
  | succ j ih => exact Nat.mul_pos ih (by omega)

theorem asc_le_pow_mul {a b : ℕ} (ha : 1 ≤ a) (hb : 1 ≤ b) (j : ℕ) :
    asc a j ≤ a ^ j * asc b j := by
  induction j with
  | zero => simp [asc]
  | succ j ih =>
    have h2 : a ≤ a * b := le_mul_of_one_le_right (Nat.zero_le a) hb
    have h3 : j ≤ a * j := le_mul_of_one_le_left (Nat.zero_le j) ha
    have h1 : a + j ≤ a * (b + j) := by
      rw [Nat.mul_add]
      exact Nat.add_le_add h2 h3
    calc asc a (j + 1) = asc a j * (a + j) := rfl
      _ ≤ a ^ j * asc b j * (a * (b + j)) := Nat.mul_le_mul ih h1
      _ = a ^ (j + 1) * asc b (j + 1) := by
          rw [asc, pow_succ]
          ring

theorem hyp1f1_term_nonneg (a b : ℕ) {z : ℝ} (hz : 0 ≤ z) (j : ℕ) :
    0 ≤ (asc a j : ℝ) / (asc b j) * z ^ j / (Nat.factorial j) :=
  div_nonneg
    (mul_nonneg (div_nonneg (Nat.cast_nonneg _) (Nat.cast_nonneg _)) (pow_nonneg hz _))
    (Nat.cast_nonneg _)

theorem hyp1f1_summable {a b : ℕ} (ha : 1 ≤ a) (hb : 1 ≤ b) {z : ℝ} (hz : 0 ≤ z) :
    Summable fun j : ℕ => (asc a j : ℝ) / (asc b j) * z ^ j / (Nat.factorial j) := by
  refine Summable.of_nonneg_of_le (hyp1f1_term_nonneg a b hz) (fun j => ?_)
    (Real.summable_pow_div_factorial ((a : ℝ) * z))
  have hb0 : (0 : ℝ) < asc b j := by exact_mod_cast asc_pos hb j
  have hfac : (0 : ℝ) < (Nat.factorial j : ℝ) := by
    exact_mod_cast Nat.factorial_pos j
  have hle : (asc a j : ℝ) / asc b j ≤ (a : ℝ) ^ j := by
    rw [div_le_iff₀ hb0]
    exact_mod_cast asc_le_pow_mul ha hb j
  rw [mul_pow]
  exact (div_le_div_iff_of_pos_right hfac).2 (mul_le_mul_of_nonneg_right hle (pow_nonneg hz j))

theorem hyp1f1_pos {a b : ℕ} (ha : 1 ≤ a) (hb : 1 ≤ b) {z : ℝ} (hz : 0 ≤ z) :
    0 < hyp1f1 a b z := by
  unfold hyp1f1
  refine tsum_pos (hyp1f1_summable ha hb hz) (hyp1f1_term_nonneg a b hz) 0 ?_
  norm_num [asc]

theorem two_mul_le_two_pow (k : ℕ) : 2 * k ≤ 2 ^ k := by
  induction k with
  | zero => decide
  | succ k ih =>
    rcases Nat.eq_zero_or_pos k with hk | hk
    · subst hk; decide
    · have h2 : 2 ≤ 2 ^ k := by
        calc 2 = 2 * 1 := rfl
          _ ≤ 2 * k := by omega
          _ ≤ 2 ^ k := ih
      rw [pow_succ]
      omega

theorem two_mul_sub_one_lt_two_pow (k : ℕ) : (2 * k : ℚ) - 1 < 2 ^ k := by
  have h := two_mul_le_two_pow k
  have h2 : ((2 * k : ℕ) : ℚ) ≤ ((2 ^ k : ℕ) : ℚ) := by exact_mod_cast h
  push_cast at h2
  linarith

theorem notm_variance_pos {blocksize k : ℕ} (hbs : 1 ≤ blocksize) :
    0 < notm_variance blocksize k := by
  unfold notm_variance
  have h1 : (2 * (k : ℚ)) - 1 < 2 ^ k := by
    have := two_mul_sub_one_lt_two_pow k
    push_cast at this ⊢
    linarith
  have h2 : (0 : ℚ) < 2 ^ k := by positivity
  have h4 : (0 : ℚ) < 2 ^ (2 * k) := by positivity
  have hb : (0 : ℚ) < blocksize := by exact_mod_cast hbs
  refine mul_pos hb ?_
  rw [sub_pos, div_lt_div_iff₀ h4 h2, one_mul]
  have h5 : (2 : ℚ) ^ (2 * k) = 2 ^ k * 2 ^ k := by
    rw [two_mul, pow_add]
  rw [h5]
  exact mul_lt_mul_of_pos_right h1 h2

theorem chi2Statistic_nonneg {probs : List ℚ} (hp : ∀ p ∈ probs, 0 < p)
    (freqbins : List ℕ) {nblocks : ℕ} (hn : 0 < nblocks) :
    0 ≤ chi2Statistic probs freqbins nblocks := by
  unfold chi2Statistic
  refine List.sum_nonneg fun q hq => ?_
  obtain ⟨⟨p, b⟩, hpb, rfl⟩ := List.mem_map.1 hq
  have hp1 : 0 < p := hp p (List.of_mem_zip hpb).1
  have hden : (0 : ℚ) < (nblocks : ℚ) * p := by
    refine mul_pos ?_ hp1
    exact_mod_cast hn
  exact div_nonneg (sq_nonneg _) hden.le


theorem otm_probabilities_pos {blocksize k : ℕ} (hk : k ≤ blocksize) :
    ∀ p ∈ otm_probabilities blocksize k, 0 < p := by
  intro p hp
  simp only [otm_probabilities, List.mem_map, List.mem_range] at hp
  obtain ⟨x, hx, rfl⟩ := hp
  have h1 : (k : ℝ) ≤ blocksize := by exact_mod_cast hk
  have h2 : (0 : ℝ) < (blocksize : ℝ) - k + 1 := by linarith
  have heta : (0 : ℝ) < ((blocksize : ℝ) - k + 1) / 2 ^ k / 2 := by positivity
  refine mul_pos (div_pos (mul_pos heta (Real.exp_pos _)) (by positivity)) ?_
  exact hyp1f1_pos (Nat.succ_le_succ (Nat.zero_le x)) (by omega) heta.le

theorem otm_statistic_nonneg (tallies : List ℕ) {nblocks blocksize k : ℕ}
    (hn : 0 < nblocks) (hk : k ≤ blocksize) :
    0 ≤ otm_statistic tallies nblocks blocksize k := by
  unfold otm_statistic
  refine List.sum_nonneg fun q hq => ?_
  obtain ⟨⟨t, p⟩, htp, rfl⟩ := List.mem_map.1 hq
  have hp : 0 < p := otm_probabilities_pos hk p (List.of_mem_zip htp).2
  have hden : (0 : ℝ) < (nblocks : ℝ) * p := by
    refine mul_pos ?_ hp
    exact_mod_cast hn
  exact div_nonneg (sq_nonneg _) hden.le

theorem longest_runs_regime_cases {n : ℕ} {r : LongestRunsRegime}
    (h : longest_runs_regime n = .ok r) :
    r = ⟨8, 16, [1, 2, 3, 4]⟩ ∨ r = ⟨128, 49, [4, 5, 6, 7, 8, 9]⟩ ∨
      r = ⟨10 ^ 4, 75, [10, 11, 12, 13, 14, 15, 16]⟩ := by
  unfold longest_runs_regime at h
  split_ifs at h
  · exact Or.inl (by simpa using h.symm)
  · exact Or.inr (Or.inl (by simpa using h.symm))
  · exact Or.inr (Or.inr (by simpa using h.symm))

theorem maxlenProbabilities_pos {bs : ℕ} {ps : List ℚ}
    (h : maxlenProbabilities bs = .ok ps) : ∀ p ∈ ps, 0 < p := by
  unfold maxlenProbabilities at h
  split_ifs at h <;>
    · simp only [Except.ok.injEq] at h
      subst h
      intro p hp
      fin_cases hp <;> norm_num

theorem longest_runs_core_ok {xs : List α} {c : α} {out : LongestRunsOut}
    (h : longest_runs_core xs c = .ok out) :
    ∃ probs, longest_runs_regime xs.length = .ok out.regime ∧
      maxlenProbabilities out.regime.blocksize = .ok probs ∧
      out.statistic = chi2Statistic probs out.freqbins out.regime.nblocks := by
  unfold longest_runs_core at h
  split at h
  · simp at h
  next regime hr =>
    split at h
    · simp at h
    next probs hp =>
      split at h
      · simp at h
      next freqbins ht =>
        have hout := (Except.ok.inj h).symm
        subst hout
        exact ⟨probs, hr, hp, rfl⟩


/-- Claim C4 (refuted): with an explicitly supplied candidate, a uniform
sequence reaches the `runs` computation with candidate proportion 1, and
the body raises nothing: `runs_err` has no degenerate-proportion branch
(the source divides by the zero denominator, numpy turns it into an
infinity, and `erfc` of it is returned as `p = 0.0`). -/
theorem claim_C4_no_degenerate_proportion_error :
    runs_err (List.replicate 4 (1 : ℤ)) 1 = none ∧
      runs_prop (List.replicate 4 (1 : ℤ)) 1 = 1 := by
  refine ⟨rfl, ?_⟩
  norm_num [runs_prop, List.count_replicate]

/-- Claim C10: in the spectral test on an odd-length sequence, the
threshold and the expected below-threshold count are computed from the
original odd n, while the transform input is the truncated sequence and
the half spectrum has n / 2 = (n - 1) / 2 entries. -/
theorem claim_C10_spectral_truncation (xs : List α) (heads tails : α)
    (hodd : xs.length % 2 = 1) (r : SpectralCore)
    (h : spectral_core xs heads tails = .ok r) :
    r.threshold = Real.sqrt (Real.log 20 * xs.length) ∧
    r.nbelowExpect = 0.95 * xs.length / 2 ∧
    r.signal = oscillations xs.dropLast heads tails ∧
    r.signal.length = xs.length - 1 ∧
    r.halfCount = xs.length / 2 ∧
    2 * r.halfCount = xs.length - 1 ∧
    Real.sqrt (Real.log 20 * ((xs.length - 1 : ℕ) : ℝ)) < r.threshold ∧
    0.95 * ((xs.length : ℝ) - 1) / 2 < r.nbelowExpect := by
  have hne : xs.length ≠ 0 := by omega
  have hlog : (0 : ℝ) < Real.log 20 := Real.log_pos (by norm_num)
  have hcast : ((xs.length - 1 : ℕ) : ℝ) = (xs.length : ℝ) - 1 := by
    push_cast [Nat.cast_sub (by omega : 1 ≤ xs.length)]
    ring
  have hlt : (xs.length : ℝ) - 1 < (xs.length : ℝ) := by linarith
  simp only [spectral_core, if_pos (show xs.length % 2 ≠ 0 by omega)] at h
  split_ifs at h with hcond
  all_goals cases h
  refine ⟨?_, rfl, rfl, ?_, rfl, ?_, ?_, ?_⟩
  · show spectral_threshold xs.length = _
    rw [spectral_threshold]
    norm_num
  · show (oscillations xs.dropLast heads tails).length = xs.length - 1
    simp [oscillations]
  · show 2 * (xs.length / 2) = xs.length - 1
    omega
  · show Real.sqrt _ < spectral_threshold xs.length
    rw [spectral_threshold]
    have h20 : Real.log (1 / 0.05) = Real.log 20 := by norm_num
    rw [h20]
    refine Real.sqrt_lt_sqrt (by positivity) ?_
    rw [hcast]
    exact mul_lt_mul_of_pos_left hlt hlog
  · show 0.95 * ((xs.length : ℝ) - 1) / 2 < 0.95 * (xs.length : ℝ) / 2
    linarith


/-- Claim C7 (counterexample): recommendations are not soft for every
input.  With 289 blocks on a length-288 sequence (an input on which the
recommendation `nblocks <= 100` fails), `blocksize = 0` and the evaluation
of the recommendation condition `nblocks == n // blocksize` itself raises
`ZeroDivisionError`: no result (and no warning) is ever produced. -/
theorem claim_C7_counterexample :
    non_overlapping_template_matching (List.replicate 288 (0 : ℤ)) [0] 289 =
        .error .zeroDivisionError ∧
      ((notm_recommendations 288 289 0).headD ("", true)).2 = false :=
  ⟨rfl, rfl⟩

/-- Claim C7 (amended): whenever `1 ≤ nblocks` and `blocksize ≥ 1` (so the
recommendation conditions themselves evaluate), the full
`non_overlapping_template_matching` equals the recommendation-free core
with the warning list attached — failing recommendations never raise and
never change the statistic — and a condition's warning is recorded exactly
when the condition fails; likewise the spectral test equals its
recommendation-free core with the `n ≥ 1000` failures attached. -/
theorem claim_C7_soft_recommendations :
    (∀ (xs tmpl : List ℤ) (nblocks : ℕ), 1 ≤ nblocks → 1 ≤ xs.length / nblocks →
      non_overlapping_template_matching xs tmpl nblocks =
        (notm_core xs tmpl nblocks).map fun c =>
          (c, notm_warnings xs.length nblocks (xs.length / nblocks))) ∧
    (∀ n nblocks blocksize : ℕ,
      (("Input parameters fail recommendation nblocks <= 100" ∈
          notm_warnings n nblocks blocksize) ↔ ¬nblocks ≤ 100) ∧
      (("Input parameters fail recommendation blocksize > 0.01 * n" ∈
          notm_warnings n nblocks blocksize) ↔ ¬(0.01 : ℚ) * n < blocksize) ∧
      (("Input parameters fail recommendation nblocks == n // blocksize" ∈
          notm_warnings n nblocks blocksize) ↔ ¬nblocks = n / blocksize)) ∧
    (∀ (xs : List ℤ) (heads tails : ℤ),
      spectral xs heads tails = (spectral_core xs heads tails).map fun c =>
        (c, check_recommendations [("n ≥ 1000", decide (1000 ≤ xs.length))])) ∧
    (∀ n : ℕ,
      ("n ≥ 1000" ∈ check_recommendations [("n ≥ 1000", decide (1000 ≤ n))] ↔
        ¬1000 ≤ n)) := by
  refine ⟨?_, ?_, ?_, ?_⟩
  · intro xs tmpl nblocks h1 h2
    have hn : ¬nblocks = 0 := by omega
    have hb : ¬xs.length / nblocks = 0 := by omega
    simp only [non_overlapping_template_matching, notm_core, if_neg hn, if_neg hb,
      Except.map]
  · intro n nblocks blocksize
    refine ⟨?_, ?_, ?_⟩ <;>
      · by_cases hc1 : nblocks ≤ 100 <;> by_cases hc2 : (0.01 : ℚ) * n < blocksize <;>
          by_cases hc3 : nblocks = n / blocksize <;>
          simp [notm_warnings, notm_recommendations, hc1, hc2, hc3]
  · intro xs heads tails
    simp only [spectral, spectral_core]
    split <;> split <;> rfl
  · intro n
    by_cases hc : 1000 ≤ n <;> simp [check_recommendations, hc]

/-- Witness for C7 at concrete inputs. -/
theorem claim_C7_witness :
    (non_overlapping_template_matching ([0, 1, 0, 1] : List ℤ) [1] 2 =
      (notm_core ([0, 1, 0, 1] : List ℤ) [1] 2).map fun c =>
        (c, notm_warnings ([0, 1, 0, 1] : List ℤ).length 2
          (([0, 1, 0, 1] : List ℤ).length / 2))) ∧
    ("n ≥ 1000" ∈ check_recommendations [("n ≥ 1000", decide (1000 ≤ 4))] ↔
      ¬1000 ≤ 4) :=
  ⟨claim_C7_soft_recommendations.1 ([0, 1, 0, 1] : List ℤ) [1] 2 (by norm_num)
      (by norm_num),
    claim_C7_soft_recommendations.2.2.2 4⟩


theorem foldl_set_length (l : List ℕ) (init : List ℕ) :
    (l.foldl (fun t m => t.set (min m 5) (t.getD (min m 5) 0 + 1)) init).length =
      init.length := by
  induction l generalizing init with
  | nil => rfl
  | cons m l ih => rw [List.foldl_cons, ih, List.length_set]

theorem otm_tallies_length (blockMatches : List ℕ) :
    (otm_tallies blockMatches).length = 6 := by
  unfold otm_tallies
  rw [foldl_set_length]
  rfl

/-- Claim C8 (amended): the returned p value lies in [0, 1] for runs,
longest-run-in-block, non-overlapping template matching and the spectral
test whenever a result is returned, and for overlapping template matching
provided additionally that the template fits within a block
(`k ≤ blocksize`).  Without that proviso the original claim is false: the
code performs no template-length check, and for `k > blocksize` the rate
`lambda = (blocksize - k + 1) / 2^k` is nonpositive, the statistic is
negative (see the counterexample), and scipy `gammaincc` returns NaN. -/
theorem claim_C8_p_in_unit_interval :
    (∀ (xs : List ℤ) (c : ℤ), runs_err xs c = none → xs.count c < xs.length →
      0 ≤ runs_p xs c ∧ runs_p xs c ≤ 1) ∧
    (∀ (xs : List ℤ) (c : ℤ) (out : LongestRunsOut),
      longest_runs_core xs c = .ok out →
      0 ≤ longest_runs_p out ∧ longest_runs_p out ≤ 1) ∧
    (∀ (xs tmpl : List ℤ) (nblocks : ℕ) (out : NotmCore × List String),
      non_overlapping_template_matching xs tmpl nblocks = .ok out →
      0 ≤ notm_p nblocks out.1.statistic ∧ notm_p nblocks out.1.statistic ≤ 1) ∧
    (∀ (xs tmpl : List ℤ) (nblocks blocksize : ℕ) (tallies : List ℕ),
      otm_core xs tmpl nblocks = .ok (blocksize, tallies) →
      tmpl.length ≤ blocksize →
      0 ≤ otm_p tallies nblocks blocksize tmpl.length ∧
        otm_p tallies nblocks blocksize tmpl.length ≤ 1) ∧
    (∀ (xs : List ℤ) (heads tails : ℤ) (out : SpectralCore × List String),
      spectral xs heads tails = .ok out → 0 ≤ out.1.p ∧ out.1.p ≤ 1) := by
  refine ⟨?_, ?_, ?_, ?_, ?_⟩
  · -- runs
    intro xs c h1 h2
    have hc0 : xs.count c ≠ 0 := by
      intro hc
      rw [runs_err, if_pos hc] at h1
      simp at h1
    have hn0 : 0 < xs.length := by omega
    have hmr : (0 : ℝ) < (xs.count c : ℝ) := by
      exact_mod_cast Nat.pos_of_ne_zero hc0
    have hnr : (0 : ℝ) < (xs.length : ℝ) := by exact_mod_cast hn0
    have hprop1 : (0 : ℝ) < (xs.count c : ℝ) / xs.length := div_pos hmr hnr
    have hprop2 : (xs.count c : ℝ) / xs.length < 1 := by
      rw [div_lt_one hnr]
      exact_mod_cast h2
    have hsq : (0 : ℝ) < Real.sqrt (2 * xs.length) := by
      refine Real.sqrt_pos.2 (by positivity)
    have hden : (0 : ℝ) < 2 * Real.sqrt (2 * (xs.length : ℝ)) *
        ((xs.count c : ℝ) / xs.length) * (1 - (xs.count c : ℝ) / xs.length) := by
      have h3 : (0 : ℝ) < 1 - (xs.count c : ℝ) / xs.length := by linarith
      positivity
    have harg : (0 : ℝ) ≤
        |(runs_nruns xs : ℝ) - 2 * (xs.count c : ℝ) *
            (1 - (xs.count c : ℝ) / xs.length)| /
          (2 * Real.sqrt (2 * (xs.length : ℝ)) * ((xs.count c : ℝ) / xs.length) *
            (1 - (xs.count c : ℝ) / xs.length)) :=
      div_nonneg (abs_nonneg _) hden.le
    simp only [runs_p]
    exact ⟨erfc_nonneg _, erfc_le_one harg⟩
  · -- longest_runs
    intro xs c out h
    obtain ⟨probs, hr, hp, hstat⟩ := longest_runs_core_ok h
    have hq : (0 : ℚ) ≤ out.statistic := by
      rw [hstat]
      refine chi2Statistic_nonneg (maxlenProbabilities_pos hp) _ ?_
      rcases longest_runs_regime_cases hr with hcase | hcase | hcase <;>
        rw [hcase] <;> norm_num
    have ha : (0 : ℝ) < ((out.regime.freqbinranges.length - 1 : ℕ) : ℝ) / 2 := by
      rcases longest_runs_regime_cases hr with hcase | hcase | hcase <;>
        rw [hcase] <;> norm_num
    have hx : (0 : ℝ) ≤ (out.statistic : ℝ) / 2 := by
      have : (0 : ℝ) ≤ (out.statistic : ℝ) := by exact_mod_cast hq
      linarith
    rw [longest_runs_p]
    exact ⟨gammaincc_nonneg ha hx, gammaincc_le_one ha hx⟩
  · -- non-overlapping template matching
    intro xs tmpl nblocks out h
    simp only [non_overlapping_template_matching] at h
    split_ifs at h with hn hb
    all_goals cases h
    have hbs : 1 ≤ xs.length / nblocks := Nat.pos_of_ne_zero hb
    have hq : (0 : ℚ) ≤ (((rawblocks xs (xs.length / nblocks)).map fun b =>
        nonoverlapping_matches b tmpl).map fun m =>
          ((m : ℚ) - notm_matches_expect (xs.length / nblocks) tmpl.length) ^ 2 /
            notm_variance (xs.length / nblocks) tmpl.length).sum := by
      refine List.sum_nonneg fun q hq => ?_
      obtain ⟨m, hm, rfl⟩ := List.mem_map.1 hq
      exact div_nonneg (sq_nonneg _) (notm_variance_pos hbs).le
    have ha : (0 : ℝ) < (nblocks : ℝ) / 2 := by
      have : 0 < nblocks := Nat.pos_of_ne_zero hn
      positivity
    have hx : (0 : ℝ) ≤ ((((rawblocks xs (xs.length / nblocks)).map fun b =>
        nonoverlapping_matches b tmpl).map fun m =>
          ((m : ℚ) - notm_matches_expect (xs.length / nblocks) tmpl.length) ^ 2 /
            notm_variance (xs.length / nblocks) tmpl.length).sum : ℝ) / 2 := by
      have h5 : (0 : ℝ) ≤ ((((rawblocks xs (xs.length / nblocks)).map fun b =>
          nonoverlapping_matches b tmpl).map fun m =>
            ((m : ℚ) - notm_matches_expect (xs.length / nblocks) tmpl.length) ^ 2 /
              notm_variance (xs.length / nblocks) tmpl.length).sum : ℝ) := by
        exact_mod_cast hq
      linarith
    rw [notm_p]
    exact ⟨gammaincc_nonneg ha hx, gammaincc_le_one ha hx⟩
  · -- overlapping template matching
    intro xs tmpl nblocks blocksize tallies h hk
    simp only [otm_core] at h
    split_ifs at h with hn
    all_goals cases h
    have hnpos : 0 < nblocks := Nat.pos_of_ne_zero hn
    have hlen : (otm_tallies ((rawblocks xs (xs.length / nblocks)).map fun b =>
        overlapping_matches b tmpl (xs.length / nblocks))).length = 6 :=
      otm_tallies_length _
    have ha : (0 : ℝ) <
        (((otm_tallies ((rawblocks xs (xs.length / nblocks)).map fun b =>
          overlapping_matches b tmpl (xs.length / nblocks))).length - 1 : ℕ) : ℝ) / 2 := by
      rw [hlen]
      norm_num
    have hx : (0 : ℝ) ≤ otm_statistic (otm_tallies ((rawblocks xs
        (xs.length / nblocks)).map fun b =>
          overlapping_matches b tmpl (xs.length / nblocks))) nblocks
        (xs.length / nblocks) tmpl.length / 2 := by
      have := otm_statistic_nonneg (otm_tallies ((rawblocks xs
        (xs.length / nblocks)).map fun b =>
          overlapping_matches b tmpl (xs.length / nblocks))) hnpos hk
      linarith
    rw [otm_p]
    exact ⟨gammaincc_nonneg ha hx, gammaincc_le_one ha hx⟩
  · -- spectral
    intro xs heads tails out h
    simp only [spectral] at h
    split_ifs at h with hc
    all_goals cases h
    all_goals
      exact ⟨erfc_nonneg _, erfc_le_one (div_nonneg (abs_nonneg _) (Real.sqrt_nonneg _))⟩


set_option maxHeartbeats 4000000 in
/-- Witness for C8 at concrete inputs for each of the five tests. -/
theorem claim_C8_witness :
    (runs_err ([0, 1] : List ℤ) 1 = none ∧
      ([0, 1] : List ℤ).count 1 < ([0, 1] : List ℤ).length ∧
      0 ≤ runs_p ([0, 1] : List ℤ) 1 ∧ runs_p ([0, 1] : List ℤ) 1 ≤ 1) ∧
    (longest_runs_core w8input 1 = .ok w8out ∧
      0 ≤ longest_runs_p w8out ∧ longest_runs_p w8out ≤ 1) ∧
    (non_overlapping_template_matching ([0, 1, 0, 1] : List ℤ) [1] 2 = .ok wNotmOut ∧
      0 ≤ notm_p 2 wNotmOut.1.statistic ∧ notm_p 2 wNotmOut.1.statistic ≤ 1) ∧
    (otm_core ([0, 1, 0, 1, 0, 1, 0, 1] : List ℤ) [0, 1] 2 = .ok (wOtm.1, wOtm.2) ∧
      0 ≤ otm_p wOtm.2 2 wOtm.1 ([0, 1] : List ℤ).length ∧
        otm_p wOtm.2 2 wOtm.1 ([0, 1] : List ℤ).length ≤ 1) ∧
    (spectral ([0, 1] : List ℤ) 0 1 = .ok wSpec ∧
      0 ≤ wSpec.1.p ∧ wSpec.1.p ≤ 1) := by
  have h1 : runs_err ([0, 1] : List ℤ) 1 = none := rfl
  have h2 : ([0, 1] : List ℤ).count 1 < ([0, 1] : List ℤ).length := by decide
  have h3 : longest_runs_core w8input 1 = .ok w8out := rfl
  have h4 : non_overlapping_template_matching ([0, 1, 0, 1] : List ℤ) [1] 2 =
      .ok wNotmOut := rfl
  have h5 : otm_core ([0, 1, 0, 1, 0, 1, 0, 1] : List ℤ) [0, 1] 2 =
      .ok (wOtm.1, wOtm.2) := rfl
  have h6 : spectral ([0, 1] : List ℤ) 0 1 = .ok wSpec := rfl
  have hk : ([0, 1] : List ℤ).length ≤ wOtm.1 := by decide
  exact ⟨⟨h1, h2, claim_C8_p_in_unit_interval.1 _ 1 h1 h2⟩,
    ⟨h3, claim_C8_p_in_unit_interval.2.1 _ 1 _ h3⟩,
    ⟨h4, claim_C8_p_in_unit_interval.2.2.1 _ _ 2 _ h4⟩,
    ⟨h5, claim_C8_p_in_unit_interval.2.2.2.1 _ _ 2 wOtm.1 wOtm.2 h5 hk⟩,
    ⟨h6, claim_C8_p_in_unit_interval.2.2.2.2 _ 0 1 _ h6⟩⟩

/-- Witness for C10 at the odd-length input `[0, 1, 0]`. -/
theorem claim_C10_witness :
    spectral_core ([0, 1, 0] : List ℤ) 0 1 = .ok wSpecOdd ∧
      wSpecOdd.threshold = Real.sqrt (Real.log 20 * 3) ∧
      wSpecOdd.signal = oscillations ([0, 1] : List ℤ) 0 1 ∧
      wSpecOdd.halfCount = 1 := by
  have h : spectral_core ([0, 1, 0] : List ℤ) 0 1 = .ok wSpecOdd := rfl
  have hodd : ([0, 1, 0] : List ℤ).length % 2 = 1 := by decide
  obtain ⟨ht, _, hsig, _, hhalf, _⟩ :=
    claim_C10_spectral_truncation ([0, 1, 0] : List ℤ) 0 1 hodd wSpecOdd h
  exact ⟨h, by exact_mod_cast ht, hsig, hhalf⟩

theorem hyp1f1_term_abs_le {a b : ℕ} (ha : 1 ≤ a) (hb : 1 ≤ b) (z : ℝ) (j : ℕ) :
    |(asc a j : ℝ) / (asc b j) * z ^ j / (Nat.factorial j)| ≤
      ((a : ℝ) * |z|) ^ j / (Nat.factorial j) := by
  have hb0 : (0 : ℝ) < asc b j := by exact_mod_cast asc_pos hb j
  have hfac : (0 : ℝ) < (Nat.factorial j : ℝ) := by exact_mod_cast Nat.factorial_pos j
  rw [abs_div, abs_mul, abs_div, abs_pow, Nat.abs_cast, Nat.abs_cast, Nat.abs_cast]
  have hle : (asc a j : ℝ) / asc b j ≤ (a : ℝ) ^ j := by
    rw [div_le_iff₀ hb0]
    exact_mod_cast asc_le_pow_mul ha hb j
  rw [mul_pow]
  exact (div_le_div_iff_of_pos_right hfac).2
    (mul_le_mul_of_nonneg_right hle (pow_nonneg (abs_nonneg z) j))

theorem hyp1f1_summable_general {a b : ℕ} (ha : 1 ≤ a) (hb : 1 ≤ b) (z : ℝ) :
    Summable fun j : ℕ => (asc a j : ℝ) / (asc b j) * z ^ j / (Nat.factorial j) :=
  Summable.of_abs (Summable.of_nonneg_of_le (fun _ => abs_nonneg _)
    (hyp1f1_term_abs_le ha hb z) (Real.summable_pow_div_factorial ((a : ℝ) * |z|)))

set_option maxHeartbeats 2000000 in
theorem hyp1f1_pos_of_mul_abs_le {a b : ℕ} (ha : 1 ≤ a) (hb : 1 ≤ b) {z : ℝ}
    (hz : (a : ℝ) * |z| ≤ 1 / 3) : 0 < hyp1f1 a b z := by
  set w : ℝ := (a : ℝ) * |z| with hw
  have hw0 : 0 ≤ w := mul_nonneg (Nat.cast_nonneg a) (abs_nonneg z)
  have hw1 : w < 1 := lt_of_le_of_lt hz (by norm_num)
  have hsum := hyp1f1_summable_general ha hb z
  have habs : Summable fun j : ℕ =>
      |(asc a (j + 1) : ℝ) / (asc b (j + 1)) * z ^ (j + 1) / (Nat.factorial (j + 1))| :=
    (summable_nat_add_iff 1).2 hsum.abs
  have hgeo : Summable fun j : ℕ => w ^ (j + 1) := by
    refine ((summable_geometric_of_lt_one hw0 hw1).mul_left w).congr fun j => ?_
    rw [← pow_succ']
  have hterm : ∀ j : ℕ,
      |(asc a (j + 1) : ℝ) / (asc b (j + 1)) * z ^ (j + 1) / (Nat.factorial (j + 1))| ≤
        w ^ (j + 1) := by
    intro j
    refine (hyp1f1_term_abs_le ha hb z (j + 1)).trans ?_
    have hfac1 : (1 : ℝ) ≤ (Nat.factorial (j + 1) : ℝ) := by
      exact_mod_cast Nat.factorial_pos (j + 1)
    exact div_le_self (pow_nonneg hw0 _) hfac1
  have htail : |tsum (fun j : ℕ => (asc a (j + 1) : ℝ) / (asc b (j + 1)) * z ^ (j + 1) /
      (Nat.factorial (j + 1)))| ≤ 1 / 2 := by
    have h1 : |tsum (fun j : ℕ => (asc a (j + 1) : ℝ) / (asc b (j + 1)) * z ^ (j + 1) /
        (Nat.factorial (j + 1)))| ≤ tsum (fun j : ℕ => |(asc a (j + 1) : ℝ) /
        (asc b (j + 1)) * z ^ (j + 1) / (Nat.factorial (j + 1))|) := by
      have h2 := norm_tsum_le_tsum_norm (f := fun j : ℕ =>
        (asc a (j + 1) : ℝ) / (asc b (j + 1)) * z ^ (j + 1) / (Nat.factorial (j + 1)))
        (by simpa only [Real.norm_eq_abs] using habs)
      simpa only [Real.norm_eq_abs] using h2
    have h2 : tsum (fun j : ℕ => |(asc a (j + 1) : ℝ) / (asc b (j + 1)) * z ^ (j + 1) /
        (Nat.factorial (j + 1))|) ≤ tsum (fun j : ℕ => w ^ (j + 1)) :=
      tsum_le_tsum hterm habs hgeo
    have h3 : tsum (fun j : ℕ => w ^ (j + 1)) = w * (1 - w)⁻¹ := by
      calc tsum (fun j : ℕ => w ^ (j + 1)) = tsum (fun j : ℕ => w * w ^ j) := by
            refine tsum_congr fun j => ?_
            rw [pow_succ']
        _ = w * tsum (fun j : ℕ => w ^ j) := tsum_mul_left
        _ = w * (1 - w)⁻¹ := by rw [tsum_geometric_of_lt_one hw0 hw1]
    have hpos : (0 : ℝ) < 1 - w := by linarith
    have h6 : (1 - w)⁻¹ ≤ (2 / 3 : ℝ)⁻¹ := by
      refine inv_anti₀ (by norm_num) ?_
      linarith
    have h4 : w * (1 - w)⁻¹ ≤ 1 / 2 := by
      have h5 := mul_le_mul_of_nonneg_left h6 hw0
      have h7 : ((2 / 3 : ℝ))⁻¹ = 3 / 2 := by norm_num
      rw [h7] at h5
      nlinarith
    calc |tsum (fun j : ℕ => (asc a (j + 1) : ℝ) / (asc b (j + 1)) * z ^ (j + 1) /
          (Nat.factorial (j + 1)))| ≤ tsum (fun j : ℕ => w ^ (j + 1)) := h1.trans h2
      _ = w * (1 - w)⁻¹ := h3
      _ ≤ 1 / 2 := h4
  rw [hyp1f1, tsum_eq_zero_add hsum]
  have h0 : (asc a 0 : ℝ) / (asc b 0) * z ^ 0 / (Nat.factorial 0) = 1 := by
    simp [asc]
  simp only [h0]
  have hge := neg_abs_le (tsum (fun j : ℕ => (asc a (j + 1) : ℝ) / (asc b (j + 1)) *
    z ^ (j + 1) / (Nat.factorial (j + 1))))
  linarith

theorem otm_probabilities_neg (blocksize k : ℕ)
    (hη : ((blocksize : ℝ) - k + 1) / 2 ^ k / 2 < 0)
    (hlb : -(1 / 18) ≤ ((blocksize : ℝ) - k + 1) / 2 ^ k / 2) :
    ∀ p ∈ otm_probabilities blocksize k, p < 0 := by
  intro p hp
  simp only [otm_probabilities, List.mem_map, List.mem_range] at hp
  obtain ⟨x, hx, rfl⟩ := hp
  set η : ℝ := ((blocksize : ℝ) - k + 1) / 2 ^ k / 2 with hdef
  have habs : |η| ≤ 1 / 18 := by
    rw [abs_of_neg hη]
    linarith
  have hyp_pos : 0 < hyp1f1 (x + 1) 2 η := by
    refine hyp1f1_pos_of_mul_abs_le (by omega) (by omega) ?_
    have hx6 : ((x + 1 : ℕ) : ℝ) ≤ 6 := by
      exact_mod_cast (by omega : x + 1 ≤ 6)
    calc ((x + 1 : ℕ) : ℝ) * |η| ≤ 6 * |η| :=
          mul_le_mul_of_nonneg_right hx6 (abs_nonneg η)
      _ ≤ 6 * (1 / 18) := by linarith
      _ = 1 / 3 := by norm_num
  refine mul_neg_of_neg_of_pos ?_ hyp_pos
  refine div_neg_of_neg_of_pos ?_ (by positivity)
  exact mul_neg_of_neg_of_pos hη (Real.exp_pos _)

theorem list_sum_neg {l : List ℝ} (h : ∀ x ∈ l, x < 0) (hne : l ≠ []) : l.sum < 0 := by
  induction l with
  | nil => exact absurd rfl hne
  | cons x t ih =>
    have hx := h x (List.mem_cons_self x t)
    rcases eq_or_ne t [] with rfl | hne2
    · simpa using hx
    · have ht := ih (fun y hy => h y (List.mem_cons_of_mem x hy)) hne2
      rw [List.sum_cons]
      linarith

theorem otm_statistic_neg {tallies : List ℕ} {nblocks blocksize k : ℕ} (hn : 0 < nblocks)
    (hp : ∀ p ∈ otm_probabilities blocksize k, p < 0)
    (hne : tallies.zip (otm_probabilities blocksize k) ≠ []) :
    otm_statistic tallies nblocks blocksize k < 0 := by
  unfold otm_statistic
  refine list_sum_neg ?_ ?_
  · intro q hq
    obtain ⟨⟨t, p⟩, htp, rfl⟩ := List.mem_map.1 hq
    have hpneg : p < 0 := hp p (List.of_mem_zip htp).2
    have hden : (nblocks : ℝ) * p < 0 :=
      mul_neg_of_pos_of_neg (by exact_mod_cast hn) hpneg
    refine div_neg_of_pos_of_neg ?_ hden
    have hnum : (0 : ℝ) < (t : ℝ) - nblocks * p := by
      have ht0 : (0 : ℝ) ≤ (t : ℝ) := Nat.cast_nonneg t
      linarith
    exact pow_pos hnum 2
  · intro hmap
    exact hne (List.map_eq_nil_iff.1 hmap)

/-- Claim C8 (counterexample): the overlapping-template test returns a
TestResult whose p is not in [0, 1].  The valid call with series
`[0, 1, 0, 1]`, explicit template `[1, 1, 1, 1]` (its values occur in the
series, and no length check exists anywhere) and `nblocks = 2` gives
`blocksize = 2 < k = 4`, so `lambda = (blocksize - k + 1) / 2^k` is
negative, every reference probability is negative, the computed statistic
is strictly negative, and scipy `gammaincc(5/2, statistic/2)` — whose
domain is nonnegative arguments — returns NaN as p. -/
theorem claim_C8_counterexample :
    otm_core ([0, 1, 0, 1] : List ℤ) [1, 1, 1, 1] 2 = .ok (2, [0, 2, 0, 0, 0, 0]) ∧
      otm_statistic [0, 2, 0, 0, 0, 0] 2 2 4 < 0 ∧
      otm_p_scipy [0, 2, 0, 0, 0, 0] 2 2 4 = none := by
  have hp6 : ∀ p ∈ otm_probabilities 2 4, p < 0 :=
    otm_probabilities_neg 2 4 (by norm_num) (by norm_num)
  have hstat : otm_statistic [0, 2, 0, 0, 0, 0] 2 2 4 < 0 := by
    refine otm_statistic_neg (by norm_num) hp6 ?_
    intro hz
    have hcontra := congrArg List.length hz
    rw [List.length_zip] at hcontra
    have hlen : (otm_probabilities 2 4).length = 6 := by
      simp [otm_probabilities]
    rw [hlen] at hcontra
    simp at hcontra
  refine ⟨rfl, hstat, ?_⟩
  rw [otm_p_scipy, scipy_gammaincc, if_neg]
  intro hcond
  have hx := hcond.2
  linarith

end Prng
